import Mathlib

/-!
Shallow embedding of the POIP warehouse data model
(src/src/warehouseLoader.hpp, src/src/WarehouseLoader.cpp) together with a
spec-derived model of the WarehouseLoader directory-loading pipeline, and
proofs of the specification claims about them.
-/

namespace POIP

/-- Kernel-reducible decidability for the lexicographic order on String
(the order used by std::map<string, double>), via Mathlib's
characterisation through character lists. -/
instance (priority := 2000) strLtDec : (a b : String) → Decidable (a < b) := fun a b =>
  decidable_of_iff (a.toList < b.toList) String.lt_iff_toList_lt.symm

/-- Ordering of metadata entries by key, as maintained by std::map<string, double>. -/
def keyLt (a b : String × ℚ) : Prop := a.1 < b.1

instance keyLtDec : DecidableRel keyLt := fun a b =>
  inferInstanceAs (Decidable (a.1 < b.1))

instance keyLtAntisymm : IsAntisymm (String × ℚ) keyLt :=
  ⟨fun _ _ h1 h2 => absurd h2 (lt_asymm h1)⟩

/-- Structural invariant of std::map<string, double>: entries strictly sorted by key
(hence keys unique). Every metadata value reachable from C++ satisfies this. -/
def metaSorted (l : List (String × ℚ)) : Prop := List.Pairwise keyLt l

instance metaSortedDec (l : List (String × ℚ)) : Decidable (metaSorted l) :=
  inferInstanceAs (Decidable (List.Pairwise keyLt l))

/-- Two's-complement reduction of an integer into the signed 32-bit range,
modelling C++ `int` arithmetic. -/
def wrap32 (x : Int) : Int := (x + 2147483648) % 4294967296 - 2147483648

/-- Embedding of `accumulate(rack_capacity.begin(), rack_capacity.end(), 0)` over
C++ `int`: a left fold whose every addition wraps to 32 bits. -/
def accumulateInt (l : List Int) : Int := l.foldl (fun a b => wrap32 (a + b)) 0

/-- Embedding of the WarehouseInstance class (src/src/warehouseLoader.hpp).
The C++ field types vector<vector<int>>, vector<int> and map<string, double>
become lists of integers and a key-value list; the std::map ordering invariant
is carried separately by `metaSorted` (see `WarehouseInstance.wf`). -/
structure WarehouseInstance where
  adjacency : List (List Int)
  rack_capacity : List Int
  product_circuit : List Int
  aisles_racks : List (List Int)
  orders : List (List Int)
  metadata : List (String × ℚ)
deriving DecidableEq

/-- Well-formedness forced by the C++ types alone: the metadata field is a
std::map, i.e. its entries are strictly sorted by key. -/
def WarehouseInstance.wf (w : WarehouseInstance) : Prop := metaSorted w.metadata

instance wfDec (w : WarehouseInstance) : Decidable w.wf :=
  inferInstanceAs (Decidable (metaSorted w.metadata))

/-- Embedding of the WarehouseInstance constructor (src/src/WarehouseLoader.cpp,
lines 6-18): a member-initializer list that copies each argument, with no
validation of any kind. -/
def WarehouseInstance.construct (adjacency : List (List Int)) (rack_capacity : List Int)
    (product_circuit : List Int) (aisles_racks : List (List Int))
    (orders : List (List Int)) (metadata : List (String × ℚ)) : WarehouseInstance :=
  { adjacency := adjacency
    rack_capacity := rack_capacity
    product_circuit := product_circuit
    aisles_racks := aisles_racks
    orders := orders
    metadata := metadata }

/-- Structured content of the text written by affichage to standard output:
the four header numbers, then the metadata lines in print order. -/
structure SummaryReport where
  num_racks : Nat
  capacity : Int
  num_products : Nat
  num_orders : Nat
  metadataLines : List (String × ℚ)
deriving DecidableEq

/-- Embedding of WarehouseInstance::affichage (src/src/WarehouseLoader.cpp,
lines 20-34): prints the sizes of rack_capacity, product_circuit and orders,
the accumulated capacity, and - only when metadata is non-empty - one line per
metadata entry in std::map iteration order. -/
def WarehouseInstance.affichage (w : WarehouseInstance) : SummaryReport :=
  { num_racks := w.rack_capacity.length
    capacity := accumulateInt w.rack_capacity
    num_products := w.product_circuit.length
    num_orders := w.orders.length
    metadataLines := if w.metadata.isEmpty then [] else w.metadata }

/-- Calling the const member function affichage on an object: it returns the
printed report together with the object state after the call. -/
def WarehouseInstance.affichageRun (w : WarehouseInstance) :
    SummaryReport × WarehouseInstance :=
  (w.affichage, w)

/-- Modelled from the spec: the on-disk files read by the WarehouseLoader
directory load (the loader itself is absent from src/; only WarehouseInstance
is there). A file is a list of lines, each line a list of whitespace-separated
tokens; a token is an integer literal, a fractional numeric literal, or a
non-numeric word. -/
inductive Token where
  | int (n : Int)
  | real (q : ℚ)
  | word (s : String)
deriving DecidableEq

/-- Modelled from the spec: the line/token content of one file. -/
abbrev FileContent := List (List Token)

/-- Modelled from the spec: the expected files of a warehouse directory
(section 6 of the spec); `none` models a missing or unreadable file.
The metadata file is optional. -/
structure Directory where
  graph : Option FileContent
  rack_capacity : Option FileContent
  aisles_racks : Option FileContent
  product_circuit : Option FileContent
  orders : Option FileContent
  metadata : Option FileContent
deriving DecidableEq

/-- Modelled from the spec: names of the expected files of a warehouse directory. -/
inductive SpecFile where
  | graphFile
  | rackFile
  | aislesFile
  | circuitFile
  | ordersFile
  | metadataFile
deriving DecidableEq

/-- Modelled from the spec: the InvariantViolation taxonomy (section 7),
each constructor naming the broken invariant and the offending index. -/
inductive Invariant where
  | nonSquare (row : Nat)
  | negativeEntry (row : Nat)
  | negativeCapacity (idx : Nat)
  | rackIdOutOfRange (aisle : Nat)
  | duplicateRack (rack : Int)
  | productIdOutOfRange (ord : Nat)
deriving DecidableEq

/-- Modelled from the spec: the fatal error taxonomy of the loader (section 7):
IOError, ParseError, InvariantViolation. -/
inductive LoadError where
  | ioError (file : SpecFile)
  | parseError (file : SpecFile)
  | invariantViolation (inv : Invariant)
deriving DecidableEq

/-- Modelled from the spec: reading one token as an integer; a non-integer
token is a parse failure. -/
def tokInt : Token → Option Int
  | Token.int n => some n
  | Token.real _ => none
  | Token.word _ => none

/-- Modelled from the spec: reading one token as a floating-point value;
integers are accepted as floats, words are a parse failure. -/
def tokReal : Token → Option ℚ
  | Token.int n => some (n : ℚ)
  | Token.real q => some q
  | Token.word _ => none

/-- Modelled from the spec: a line of whitespace-separated integers. -/
def parseInts : List Token → Option (List Int)
  | [] => some []
  | t :: ts =>
    match tokInt t, parseInts ts with
    | some n, some ns => some (n :: ns)
    | _, _ => none

/-- Modelled from the spec: a line holding exactly one integer
(rack_capacity and product_circuit files). -/
def parseSingleInt : List Token → Option Int
  | [t] => tokInt t
  | _ => none

/-- Modelled from the spec: a metadata line, a name followed by a
floating-point value. -/
def parseMetaLine : List Token → Option (String × ℚ)
  | [Token.word s, t] => (tokReal t).map (fun q => (s, q))
  | _ => none

/-- Modelled from the spec: parse every line of a file with the given line
parser; any line failure is a file failure. -/
def parseRows {α : Type} (pl : List Token → Option α) : FileContent → Option (List α)
  | [] => some []
  | line :: rest =>
    match pl line, parseRows pl rest with
    | some a, some as => some (a :: as)
    | _, _ => none

/-- Modelled from the spec: tolerate blank trailing lines - drop the maximal
blank suffix of the file before parsing. -/
def dropTrailingBlanks (f : FileContent) : FileContent :=
  (f.reverse.dropWhile (fun line => line.isEmpty)).reverse

/-- Modelled from the spec: a row-per-line integer-matrix file
(adjacency, aisles_racks, orders). -/
def parseMatrixFile (f : FileContent) : Option (List (List Int)) :=
  parseRows parseInts (dropTrailingBlanks f)

/-- Modelled from the spec: a one-integer-per-line file
(rack_capacity, product_circuit). -/
def parseColumnFile (f : FileContent) : Option (List Int) :=
  parseRows parseSingleInt (dropTrailingBlanks f)

/-- Modelled from the spec: the optional name-value metadata file. -/
def parseMetaFile (f : FileContent) : Option (List (String × ℚ)) :=
  parseRows parseMetaLine (dropTrailingBlanks f)

/-- Index of the first list element satisfying a predicate, used to report
the offending index of a broken invariant. -/
def scanFirst {α : Type} (p : α → Bool) : List α → Option Nat
  | [] => none
  | x :: xs => if p x then some 0 else (scanFirst p xs).map (fun i => i + 1)

/-- First element that repeats an earlier one (`seen` holds the elements
already passed), used for the aisle/rack exclusivity check. -/
def findDup (seen : List Int) : List Int → Option Int
  | [] => none
  | x :: xs => if x ∈ seen then some x else findDup (x :: seen) xs

/-- Modelled from the spec: matrix squareness check - every row of the
adjacency matrix must have as many entries as there are rows. -/
def checkSquare (adj : List (List Int)) : Option Invariant :=
  (scanFirst (fun row => decide (row.length ≠ adj.length)) adj).map Invariant.nonSquare

/-- Modelled from the spec: adjacency entries must be non-negative. -/
def checkEntries (adj : List (List Int)) : Option Invariant :=
  (scanFirst (fun row => row.any (fun e => decide (e < 0))) adj).map Invariant.negativeEntry

/-- Modelled from the spec: rack capacities must be non-negative. -/
def checkCapacity (cap : List Int) : Option Invariant :=
  (scanFirst (fun c => decide (c < 0)) cap).map Invariant.negativeCapacity

/-- Modelled from the spec: a rack id is out of range when negative or not
below the number of racks. -/
def rackIdBad (cap : List Int) (r : Int) : Bool :=
  decide (r < 0 ∨ (cap.length : Int) ≤ r)

/-- Modelled from the spec: every rack id of every aisle must be a valid index
into rack_capacity. -/
def checkRackIds (cap : List Int) (aisles : List (List Int)) : Option Invariant :=
  (scanFirst (fun aisle => aisle.any (rackIdBad cap)) aisles).map Invariant.rackIdOutOfRange

/-- Modelled from the spec: no rack id may be claimed twice across the aisle
lists (aisle/rack exclusivity). -/
def checkExclusive (aisles : List (List Int)) : Option Invariant :=
  (findDup [] aisles.flatten).map Invariant.duplicateRack

/-- Modelled from the spec: a product id is out of range when negative or not
below the number of products. -/
def productIdBad (circuit : List Int) (p : Int) : Bool :=
  decide (p < 0 ∨ (circuit.length : Int) ≤ p)

/-- Modelled from the spec: every product id of every order must be a valid
index into product_circuit. -/
def checkOrders (circuit : List Int) (orders : List (List Int)) : Option Invariant :=
  (scanFirst (fun ord => ord.any (productIdBad circuit)) orders).map Invariant.productIdOutOfRange

/-- Modelled from the spec: all structural validation of section 4.2, run in a
fixed sequence; reports the first violation found, or none. -/
def validate (adj : List (List Int)) (cap : List Int) (circuit : List Int)
    (aisles : List (List Int)) (orders : List (List Int)) : Option Invariant :=
  match checkSquare adj with
  | some v => some v
  | none =>
  match checkEntries adj with
  | some v => some v
  | none =>
  match checkCapacity cap with
  | some v => some v
  | none =>
  match checkRackIds cap aisles with
  | some v => some v
  | none =>
  match checkExclusive aisles with
  | some v => some v
  | none => checkOrders circuit orders

/-- Section 3 invariants of an already-built instance, as checked by the loader. -/
def validInstance (w : WarehouseInstance) : Prop :=
  validate w.adjacency w.rack_capacity w.product_circuit w.aisles_racks w.orders = none

instance validInstanceDec (w : WarehouseInstance) : Decidable (validInstance w) :=
  inferInstanceAs (Decidable (validate _ _ _ _ _ = none))

/-- Ordered insertion into a key-sorted entry list, modelling
std::map<string, double>::insert: an entry with an already-present key is
discarded, otherwise the entry lands at its key position. -/
def insertEntry (k : String) (v : ℚ) : List (String × ℚ) → List (String × ℚ)
  | [] => [(k, v)]
  | (k2, v2) :: rest =>
    if k < k2 then (k, v) :: (k2, v2) :: rest
    else if k = k2 then (k2, v2) :: rest
    else (k2, v2) :: insertEntry k v rest

/-- Building a std::map by inserting a sequence of key-value pairs in order. -/
def mkEntries (l : List (String × ℚ)) : List (String × ℚ) :=
  l.foldl (fun acc kv => insertEntry kv.1 kv.2 acc) []

/-- Modelled from the spec: the first missing required file of a directory,
in the fixed open order graph, rack_capacity, aisles_racks, product_circuit,
orders. Only meaningful when some required file is indeed missing. -/
def missingName (d : Directory) : SpecFile :=
  if d.graph.isNone then SpecFile.graphFile
  else if d.rack_capacity.isNone then SpecFile.rackFile
  else if d.aisles_racks.isNone then SpecFile.aislesFile
  else if d.product_circuit.isNone then SpecFile.circuitFile
  else SpecFile.ordersFile

/-- Lookup of a directory entry by file name. -/
def fileOf (d : Directory) : SpecFile → Option FileContent
  | SpecFile.graphFile => d.graph
  | SpecFile.rackFile => d.rack_capacity
  | SpecFile.aislesFile => d.aisles_racks
  | SpecFile.circuitFile => d.product_circuit
  | SpecFile.ordersFile => d.orders
  | SpecFile.metadataFile => d.metadata

/-- Modelled from the spec: the WarehouseLoader directory-load operation
(absent from src/, described in sections 4.2, 6 and 7 of the spec): require
the five mandatory files, parse every file, validate the section 3 invariants,
and only then construct the WarehouseInstance; any failure is fatal and
produces no instance. -/
def load (d : Directory) : Except LoadError WarehouseInstance :=
  match d.graph, d.rack_capacity, d.aisles_racks, d.product_circuit, d.orders with
  | some gf, some cf, some af, some pf, some odf =>
    (match parseMatrixFile gf with
     | none => Except.error (LoadError.parseError SpecFile.graphFile)
     | some adj =>
     match parseColumnFile cf with
     | none => Except.error (LoadError.parseError SpecFile.rackFile)
     | some cap =>
     match parseMatrixFile af with
     | none => Except.error (LoadError.parseError SpecFile.aislesFile)
     | some aisles =>
     match parseColumnFile pf with
     | none => Except.error (LoadError.parseError SpecFile.circuitFile)
     | some circuit =>
     match parseMatrixFile odf with
     | none => Except.error (LoadError.parseError SpecFile.ordersFile)
     | some ords =>
     match (match d.metadata with
            | none => some []
            | some mf => parseMetaFile mf) with
     | none => Except.error (LoadError.parseError SpecFile.metadataFile)
     | some pairs =>
     match validate adj cap circuit aisles ords with
     | some v => Except.error (LoadError.invariantViolation v)
     | none =>
       Except.ok (WarehouseInstance.construct adj cap circuit aisles ords (mkEntries pairs)))
  | _, _, _, _, _ => Except.error (LoadError.ioError (missingName d))

instance exceptDecEq {ε α : Type} [DecidableEq ε] [DecidableEq α] :
    DecidableEq (Except ε α) := fun a b =>
  match a, b with
  | Except.ok x, Except.ok y =>
    if h : x = y then Decidable.isTrue (congrArg Except.ok h)
    else Decidable.isFalse (fun hc => h (by injection hc))
  | Except.ok _, Except.error _ => Decidable.isFalse (fun hc => Except.noConfusion hc)
  | Except.error _, Except.ok _ => Decidable.isFalse (fun hc => Except.noConfusion hc)
  | Except.error e, Except.error f =>
    if h : e = f then Decidable.isTrue (congrArg Except.error h)
    else Decidable.isFalse (fun hc => h (by injection hc))

/-- Modelled from the spec: a set of in-memory specs, the input of direct
construction and of serialization. -/
structure Specs where
  adjacency : List (List Int)
  rack_capacity : List Int
  product_circuit : List Int
  aisles_racks : List (List Int)
  orders : List (List Int)
  metadata : List (String × ℚ)
deriving DecidableEq

/-- Modelled from the spec: serialize an integer matrix row-per-line. -/
def serializeMatrix (m : List (List Int)) : FileContent :=
  m.map (fun row => row.map Token.int)

/-- Modelled from the spec: serialize an integer list one-per-line. -/
def serializeColumn (l : List Int) : FileContent :=
  l.map (fun n => [Token.int n])

/-- Modelled from the spec: serialize metadata as name-value lines. -/
def serializeMeta (l : List (String × ℚ)) : FileContent :=
  l.map (fun kv => [Token.word kv.1, Token.real kv.2])

/-- Modelled from the spec: the directory holding the serialized files of a
set of in-memory specs. -/
def serializeDir (s : Specs) : Directory :=
  { graph := some (serializeMatrix s.adjacency)
    rack_capacity := some (serializeColumn s.rack_capacity)
    aisles_racks := some (serializeMatrix s.aisles_racks)
    product_circuit := some (serializeColumn s.product_circuit)
    orders := some (serializeMatrix s.orders)
    metadata := some (serializeMeta s.metadata) }

/-- Direct (constructor) route: build the WarehouseInstance straight from the
in-memory specs. -/
def directInstance (s : Specs) : WarehouseInstance :=
  WarehouseInstance.construct s.adjacency s.rack_capacity s.product_circuit
    s.aisles_racks s.orders s.metadata

/-- The end-to-end example instance of section 8 of the spec. -/
def exampleInstance : WarehouseInstance :=
  WarehouseInstance.construct [[0, 1], [1, 0]] [10, 20] [0, 1] [[0], [1]]
    [[0, 1], [1]] [((r"temperature"), (37 : ℚ) / 2)]

/-- An instance whose capacities are valid 32-bit ints but whose exact
capacity sum exceeds the 32-bit range. -/
def overflowInstance : WarehouseInstance :=
  WarehouseInstance.construct [] [2147483647, 1] [] [] [] []

/-- An instance breaking every section 3 invariant at once: ragged and
negative adjacency, negative capacity, out-of-range rack and product ids. -/
def brokenInstance : WarehouseInstance :=
  WarehouseInstance.construct [[0, 1], [-1]] [-3] [] [[5], [5]] [[99]] []

/-- A directory identical to a valid one except rack_capacity = [10, -5]
(the end-to-end failure example of section 8). -/
def badCapacityDir : Directory :=
  { graph := some [[Token.int 0]]
    rack_capacity := some [[Token.int 10], [Token.int (-5)]]
    aisles_racks := some []
    product_circuit := some []
    orders := some []
    metadata := none }

/-- A directory whose orders file is missing. -/
def missingOrdersDir : Directory :=
  { graph := some []
    rack_capacity := some []
    aisles_racks := some []
    product_circuit := some []
    orders := none
    metadata := none }

/-- Specs that satisfy every section 3 invariant but contain a trailing empty
order, which a line-oriented serialization cannot round-trip. -/
def emptyOrderSpecs : Specs :=
  { adjacency := []
    rack_capacity := []
    product_circuit := []
    aisles_racks := []
    orders := [[]]
    metadata := [] }

/-- Fully valid specs used to exercise the round-trip property. -/
def roundtripSpecs : Specs :=
  { adjacency := [[0, 1], [1, 0]]
    rack_capacity := [10, 20]
    product_circuit := [0, 1]
    aisles_racks := [[0], [1]]
    orders := [[0, 1], [1]]
    metadata := [((r"temperature"), (37 : ℚ) / 2)] }

/-! Helper lemmas about 32-bit wrap-around arithmetic. -/

theorem wrap32_add_left (a b : Int) : wrap32 (wrap32 a + b) = wrap32 (a + b) := by
  unfold wrap32
  omega

theorem wrap32_zero : wrap32 0 = 0 := by decide

theorem accumulateInt_go (l : List Int) :
    ∀ a : Int, l.foldl (fun x y => wrap32 (x + y)) (wrap32 a) = wrap32 (a + l.sum) := by
  induction l with
  | nil => intro a; simp
  | cons x xs ih =>
    intro a
    rw [List.foldl_cons, wrap32_add_left, ih (a + x), List.sum_cons]
    congr 1
    ring

theorem accumulateInt_eq_wrap_sum (l : List Int) : accumulateInt l = wrap32 l.sum := by
  have h := accumulateInt_go l 0
  rw [wrap32_zero, zero_add] at h
  exact h

theorem wrap32_range (x : Int) : -2147483648 ≤ wrap32 x ∧ wrap32 x ≤ 2147483647 := by
  unfold wrap32
  omega

theorem wrap32_of_fits (x : Int) (hlo : -2147483648 ≤ x) (hhi : x ≤ 2147483647) :
    wrap32 x = x := by
  unfold wrap32
  omega

theorem affichage_metadataLines (w : WarehouseInstance) :
    (w.affichage).metadataLines = w.metadata := by
  unfold WarehouseInstance.affichage
  cases h : w.metadata.isEmpty with
  | true => simp [List.isEmpty_iff.mp h]
  | false => simp [h]

/-- C1 (amended): affichage reports the rack count (length of rack_capacity),
the total capacity as the 32-bit wrapped sum of rack_capacity, the product
count, and the order count; its metadata lines are exactly the metadata
entries (hence present if and only if metadata is non-empty), with keys in
strictly ascending order. -/
theorem affichage_reports (w : WarehouseInstance) (hw : w.wf) :
    (w.affichage).num_racks = w.rack_capacity.length ∧
    (w.affichage).capacity = wrap32 w.rack_capacity.sum ∧
    (w.affichage).num_products = w.product_circuit.length ∧
    (w.affichage).num_orders = w.orders.length ∧
    (w.affichage).metadataLines = w.metadata ∧
    ((w.affichage).metadataLines = [] ↔ w.metadata = []) ∧
    List.Pairwise keyLt (w.affichage).metadataLines := by
  have hlines := affichage_metadataLines w
  exact ⟨rfl, accumulateInt_eq_wrap_sum w.rack_capacity, rfl, rfl, hlines,
    by rw [hlines], by rw [hlines]; exact hw⟩

/-- C1 witness: the amended report property instantiated at the section 8
example instance. -/
theorem affichage_reports_witness :
    (exampleInstance.affichage).metadataLines = exampleInstance.metadata ∧
    List.Pairwise keyLt (exampleInstance.affichage).metadataLines :=
  ⟨(affichage_reports exampleInstance (by decide)).2.2.2.2.1,
   (affichage_reports exampleInstance (by decide)).2.2.2.2.2.2⟩

/-- C1 counterexample: for an instance whose capacities are valid ints but sum
past the 32-bit range, the reported capacity is not the sum of rack_capacity. -/
theorem affichage_capacity_overflow :
    (overflowInstance.affichage).capacity ≠ overflowInstance.rack_capacity.sum := by
  decide

/-- C2: on the end-to-end example instance, affichage reports num_racks=2,
capacity=30, num_products=2, num_orders=2, and exactly one metadata line
associating "temperature" with 18.5. -/
theorem affichage_example_report :
    exampleInstance.affichage =
      { num_racks := 2
        capacity := 30
        num_products := 2
        num_orders := 2
        metadataLines := [((r"temperature"), (37 : ℚ) / 2)] } := rfl

/-- C3: affichage leaves all six fields unchanged and two consecutive calls on
the same instance print the same report. -/
theorem affichage_pure (w : WarehouseInstance) :
    (w.affichageRun).2.adjacency = w.adjacency ∧
    (w.affichageRun).2.rack_capacity = w.rack_capacity ∧
    (w.affichageRun).2.product_circuit = w.product_circuit ∧
    (w.affichageRun).2.aisles_racks = w.aisles_racks ∧
    (w.affichageRun).2.orders = w.orders ∧
    (w.affichageRun).2.metadata = w.metadata ∧
    ((w.affichageRun).2.affichageRun).1 = (w.affichageRun).1 :=
  ⟨rfl, rfl, rfl, rfl, rfl, rfl, rfl⟩

/-- C4: the constructor accepts every tuple of arguments without validation
and every field of the result equals the corresponding argument. -/
theorem construct_fields (adjacency : List (List Int)) (rack_capacity : List Int)
    (product_circuit : List Int) (aisles_racks : List (List Int))
    (orders : List (List Int)) (metadata : List (String × ℚ)) :
    (WarehouseInstance.construct adjacency rack_capacity product_circuit
        aisles_racks orders metadata).adjacency = adjacency ∧
    (WarehouseInstance.construct adjacency rack_capacity product_circuit
        aisles_racks orders metadata).rack_capacity = rack_capacity ∧
    (WarehouseInstance.construct adjacency rack_capacity product_circuit
        aisles_racks orders metadata).product_circuit = product_circuit ∧
    (WarehouseInstance.construct adjacency rack_capacity product_circuit
        aisles_racks orders metadata).aisles_racks = aisles_racks ∧
    (WarehouseInstance.construct adjacency rack_capacity product_circuit
        aisles_racks orders metadata).orders = orders ∧
    (WarehouseInstance.construct adjacency rack_capacity product_circuit
        aisles_racks orders metadata).metadata = metadata :=
  ⟨rfl, rfl, rfl, rfl, rfl, rfl⟩

/-- C9: the reported capacity is the 32-bit wrap of the exact sum of
rack_capacity: it equals the exact sum whenever that sum fits in a signed
32-bit int, and otherwise differs from it while remaining congruent to it
modulo 2^32. -/
theorem affichage_capacity_int32 (w : WarehouseInstance) :
    (w.affichage).capacity = wrap32 w.rack_capacity.sum ∧
    (-2147483648 ≤ w.rack_capacity.sum → w.rack_capacity.sum ≤ 2147483647 →
      (w.affichage).capacity = w.rack_capacity.sum) ∧
    (w.rack_capacity.sum < -2147483648 ∨ 2147483647 < w.rack_capacity.sum →
      (w.affichage).capacity ≠ w.rack_capacity.sum ∧
      ((w.affichage).capacity - w.rack_capacity.sum) % 4294967296 = 0) := by
  have h : (w.affichage).capacity = wrap32 w.rack_capacity.sum :=
    accumulateInt_eq_wrap_sum w.rack_capacity
  refine ⟨h, fun hlo hhi => ?_, fun hout => ?_⟩
  · rw [h, wrap32_of_fits _ hlo hhi]
  · rw [h]
    unfold wrap32
    constructor
    · omega
    · omega

/-- C9 witness: on the overflowing instance the reported capacity differs from
the exact sum but agrees with it modulo 2^32. -/
theorem affichage_capacity_int32_witness :
    (overflowInstance.affichage).capacity ≠ overflowInstance.rack_capacity.sum ∧
    ((overflowInstance.affichage).capacity - overflowInstance.rack_capacity.sum) %
      4294967296 = 0 :=
  (affichage_capacity_int32 overflowInstance).2.2 (by decide)

/-- C10: affichage is total over all constructible instances: on every
instance, valid or not, it returns a report and leaves the state unchanged;
and its output never depends on the contents of adjacency or aisles_racks,
nor on the contents of the individual orders (only on how many there are),
since it indexes into and validates nothing. -/
theorem affichage_no_validation :
    (∀ w : WarehouseInstance, ¬ validInstance w →
      ∃ r : SummaryReport, w.affichageRun = (r, w)) ∧
    (∀ (w : WarehouseInstance) (adj2 : List (List Int)) (aisles2 : List (List Int))
      (ords2 : List (List Int)), ords2.length = w.orders.length →
      ({ w with
          adjacency := adj2
          aisles_racks := aisles2
          orders := ords2 } : WarehouseInstance).affichage = w.affichage) := by
  constructor
  · intro w _
    exact ⟨w.affichage, rfl⟩
  · intro w adj2 aisles2 ords2 hlen
    unfold WarehouseInstance.affichage
    simp [hlen]

/-- C10 witness: the totality and field-independence properties instantiated
at an instance breaking every invariant. -/
theorem affichage_no_validation_witness :
    (∃ r : SummaryReport, brokenInstance.affichageRun = (r, brokenInstance)) ∧
    ({ brokenInstance with
        adjacency := []
        aisles_racks := []
        orders := [[123]] } : WarehouseInstance).affichage = brokenInstance.affichage :=
  ⟨affichage_no_validation.1 brokenInstance (by decide),
   affichage_no_validation.2 brokenInstance [] [] [[123]] (by decide)⟩

/-! Helper lemmas about the violation scanners. -/

theorem scanFirst_eq_none {α : Type} (p : α → Bool) (l : List α) :
    scanFirst p l = none ↔ ∀ a ∈ l, p a = false := by
  induction l with
  | nil => simp [scanFirst]
  | cons x xs ih =>
    unfold scanFirst
    by_cases h : p x
    · simp [h]
    · have h0 : p x = false := Bool.eq_false_iff.mpr h
      simp only [h0, Bool.false_eq_true, if_false, Option.map_eq_none', ih, List.mem_cons]
      constructor
      · intro hall a ha
        rcases ha with rfl | ha
        · exact h0
        · exact hall a ha
      · intro hall a ha
        exact hall a (Or.inr ha)

theorem scanFirst_some {α : Type} (p : α → Bool) (l : List α) (i : Nat)
    (h : scanFirst p l = some i) :
    ∃ hi : i < l.length, p (l.get ⟨i, hi⟩) = true := by
  induction l generalizing i with
  | nil => simp [scanFirst] at h
  | cons x xs ih =>
    unfold scanFirst at h
    by_cases hx : p x
    · rw [if_pos hx] at h
      injection h with h2
      subst h2
      exact ⟨Nat.succ_pos _, hx⟩
    · rw [if_neg hx] at h
      cases hs : scanFirst p xs with
      | none => rw [hs] at h; cases h
      | some j =>
        rw [hs, Option.map_some'] at h
        injection h with h2
        subst h2
        obtain ⟨hjl, hpj⟩ := ih j hs
        exact ⟨Nat.succ_lt_succ hjl, hpj⟩

theorem scanFirst_isSome {α : Type} (p : α → Bool) (l : List α) (a : α)
    (ha : a ∈ l) (hp : p a = true) : ∃ i, scanFirst p l = some i := by
  induction l with
  | nil => cases ha
  | cons x xs ih =>
    by_cases hx : p x
    · exact ⟨0, by simp [scanFirst, hx]⟩
    · rcases List.mem_cons.mp ha with rfl | ha2
      · exact absurd hp hx
      · obtain ⟨j, hj⟩ := ih ha2
        exact ⟨j + 1, by simp [scanFirst, hx, hj]⟩

theorem findDup_eq_none (l : List Int) :
    ∀ seen : List Int, (findDup seen l = none ↔ (∀ x ∈ l, x ∉ seen) ∧ l.Nodup) := by
  induction l with
  | nil => intro seen; simp [findDup]
  | cons x xs ih =>
    intro seen
    unfold findDup
    by_cases hx : x ∈ seen
    · simp only [hx, if_true]
      constructor
      · intro h; cases h
      · intro ⟨h1, _⟩
        exact absurd hx (h1 x (List.mem_cons_self x xs))
    · rw [if_neg hx, ih (x :: seen)]
      constructor
      · intro ⟨h1, h2⟩
        refine ⟨?_, List.nodup_cons.mpr ⟨?_, h2⟩⟩
        · intro y hy
          rcases List.mem_cons.mp hy with rfl | hy2
          · exact hx
          · intro hcon
            exact h1 y hy2 (List.mem_cons_of_mem x hcon)
        · intro hcon
          exact h1 x hcon (List.mem_cons_self x seen)
      · intro ⟨h1, h2⟩
        obtain ⟨hxxs, hnd⟩ := List.nodup_cons.mp h2
        refine ⟨?_, hnd⟩
        intro y hy hycon
        rcases List.mem_cons.mp hycon with rfl | hy2
        · exact hxxs hy
        · exact h1 y (List.mem_cons_of_mem x hy) hy2

theorem findDup_some (l : List Int) :
    ∀ (seen : List Int) (r : Int), findDup seen l = some r →
      (r ∈ seen ∧ r ∈ l) ∨ 2 ≤ l.count r := by
  induction l with
  | nil => intro seen r h; simp [findDup] at h
  | cons x xs ih =>
    intro seen r h
    unfold findDup at h
    by_cases hx : x ∈ seen
    · rw [if_pos hx] at h
      injection h with h2
      subst h2
      exact Or.inl ⟨hx, List.mem_cons_self x xs⟩
    · rw [if_neg hx] at h
      rcases ih (x :: seen) r h with ⟨hs, hl⟩ | hc
      · rcases List.mem_cons.mp hs with rfl | hs2
        · right
          have hpos : 1 ≤ xs.count r := List.count_pos_iff.mpr hl
          rw [List.count_cons_self]
          omega
        · exact Or.inl ⟨hs2, List.mem_cons_of_mem x hl⟩
      · right
        have hle : xs.count r ≤ (x :: xs).count r :=
          List.Sublist.count_le (List.sublist_cons_self x xs) r
        omega

/-! Characterisations of the individual invariant checks. -/

theorem checkSquare_eq_none (adj : List (List Int)) :
    checkSquare adj = none ↔ ∀ row ∈ adj, row.length = adj.length := by
  simp [checkSquare, scanFirst_eq_none]

theorem checkEntries_eq_none (adj : List (List Int)) :
    checkEntries adj = none ↔ ∀ row ∈ adj, ∀ e ∈ row, 0 ≤ e := by
  simp [checkEntries, scanFirst_eq_none, not_lt]

theorem checkCapacity_eq_none (cap : List Int) :
    checkCapacity cap = none ↔ ∀ c ∈ cap, 0 ≤ c := by
  simp only [checkCapacity, Option.map_eq_none', scanFirst_eq_none,
    decide_eq_false_iff_not, not_lt]

theorem checkRackIds_eq_none (cap : List Int) (aisles : List (List Int)) :
    checkRackIds cap aisles = none ↔
      ∀ aisle ∈ aisles, ∀ r ∈ aisle, 0 ≤ r ∧ r < (cap.length : Int) := by
  simp [checkRackIds, scanFirst_eq_none, rackIdBad, not_or, not_lt, not_le]

theorem checkExclusive_eq_none (aisles : List (List Int)) :
    checkExclusive aisles = none ↔ aisles.flatten.Nodup := by
  simp only [checkExclusive, Option.map_eq_none', findDup_eq_none]
  simp

theorem checkOrders_eq_none (circuit : List Int) (orders : List (List Int)) :
    checkOrders circuit orders = none ↔
      ∀ ord ∈ orders, ∀ p ∈ ord, 0 ≤ p ∧ p < (circuit.length : Int) := by
  simp [checkOrders, scanFirst_eq_none, productIdBad, not_or, not_lt, not_le]

theorem validate_eq_none_iff (adj : List (List Int)) (cap : List Int) (circuit : List Int)
    (aisles : List (List Int)) (orders : List (List Int)) :
    validate adj cap circuit aisles orders = none ↔
      checkSquare adj = none ∧ checkEntries adj = none ∧ checkCapacity cap = none ∧
      checkRackIds cap aisles = none ∧ checkExclusive aisles = none ∧
      checkOrders circuit orders = none := by
  unfold validate
  cases checkSquare adj <;> cases checkEntries adj <;> cases checkCapacity cap <;>
    cases checkRackIds cap aisles <;> cases checkExclusive aisles <;>
    cases checkOrders circuit orders <;> simp

/-- C5: the loader validation rejects — with an InvariantViolation naming the
invariant and an offending index, and producing no instance — a non-square
adjacency matrix, a negative rack capacity, a rack id claimed by two different
aisles, and an order referencing a product id out of range; and the concrete
directory with rack_capacity=[10,-5] fails the whole load citing rack index 1. -/
theorem load_rejects_invalid :
    (∀ (adj : List (List Int)) (cap circuit : List Int)
      (aisles orders : List (List Int)),
      (∃ row ∈ adj, row.length ≠ adj.length) →
      ∃ i, validate adj cap circuit aisles orders = some (Invariant.nonSquare i) ∧
        ∃ hi : i < adj.length, (adj.get ⟨i, hi⟩).length ≠ adj.length) ∧
    (∀ (adj : List (List Int)) (cap circuit : List Int)
      (aisles orders : List (List Int)),
      (∀ row ∈ adj, row.length = adj.length) →
      (∀ row ∈ adj, ∀ e ∈ row, 0 ≤ e) →
      (∃ c ∈ cap, c < 0) →
      ∃ i, validate adj cap circuit aisles orders = some (Invariant.negativeCapacity i) ∧
        ∃ hi : i < cap.length, cap.get ⟨i, hi⟩ < 0) ∧
    (∀ (adj : List (List Int)) (cap circuit : List Int)
      (aisles orders pre mid post : List (List Int)) (a1 a2 : List Int) (r : Int),
      (∀ row ∈ adj, row.length = adj.length) →
      (∀ row ∈ adj, ∀ e ∈ row, 0 ≤ e) →
      (∀ c ∈ cap, 0 ≤ c) →
      (∀ aisle ∈ aisles, ∀ r2 ∈ aisle, 0 ≤ r2 ∧ r2 < (cap.length : Int)) →
      aisles = pre ++ a1 :: mid ++ a2 :: post → r ∈ a1 → r ∈ a2 →
      ∃ rd, validate adj cap circuit aisles orders = some (Invariant.duplicateRack rd) ∧
        2 ≤ aisles.flatten.count rd) ∧
    (∀ (adj : List (List Int)) (cap circuit : List Int)
      (aisles orders : List (List Int)),
      (∀ row ∈ adj, row.length = adj.length) →
      (∀ row ∈ adj, ∀ e ∈ row, 0 ≤ e) →
      (∀ c ∈ cap, 0 ≤ c) →
      (∀ aisle ∈ aisles, ∀ r2 ∈ aisle, 0 ≤ r2 ∧ r2 < (cap.length : Int)) →
      aisles.flatten.Nodup →
      (∃ ord ∈ orders, ∃ p ∈ ord, p < 0 ∨ (circuit.length : Int) ≤ p) →
      ∃ i, validate adj cap circuit aisles orders =
          some (Invariant.productIdOutOfRange i) ∧
        ∃ hi : i < orders.length, ∃ p ∈ orders.get ⟨i, hi⟩,
          p < 0 ∨ (circuit.length : Int) ≤ p) ∧
    load badCapacityDir =
      Except.error (LoadError.invariantViolation (Invariant.negativeCapacity 1)) := by
  refine ⟨?_, ?_, ?_, ?_, rfl⟩
  · intro adj cap circuit aisles orders hbad
    obtain ⟨row, hrow, hne⟩ := hbad
    obtain ⟨i, hi⟩ := scanFirst_isSome (fun row => decide (row.length ≠ adj.length))
      adj row hrow (by simp [hne])
    obtain ⟨hlt, hp⟩ := scanFirst_some (fun row => decide (row.length ≠ adj.length)) adj i hi
    refine ⟨i, ?_, hlt, of_decide_eq_true hp⟩
    have hcs : checkSquare adj = some (Invariant.nonSquare i) := by
      unfold checkSquare
      rw [hi]
      rfl
    simp [validate, hcs]
  · intro adj cap circuit aisles orders hsq hnn hneg
    have hcs : checkSquare adj = none := (checkSquare_eq_none adj).mpr hsq
    have hce : checkEntries adj = none := (checkEntries_eq_none adj).mpr hnn
    obtain ⟨c, hc, hclt⟩ := hneg
    obtain ⟨i, hi⟩ := scanFirst_isSome (fun c => decide (c < 0)) cap c hc (by simp [hclt])
    obtain ⟨hlt, hp⟩ := scanFirst_some (fun c => decide (c < 0)) cap i hi
    refine ⟨i, ?_, hlt, of_decide_eq_true hp⟩
    have hcc : checkCapacity cap = some (Invariant.negativeCapacity i) := by
      unfold checkCapacity
      rw [hi]
      rfl
    simp [validate, hcs, hce, hcc]
  · intro adj cap circuit aisles orders pre mid post a1 a2 r hsq hnn hcap hrange
      hsplit hr1 hr2
    have hcs : checkSquare adj = none := (checkSquare_eq_none adj).mpr hsq
    have hce : checkEntries adj = none := (checkEntries_eq_none adj).mpr hnn
    have hcc : checkCapacity cap = none := (checkCapacity_eq_none cap).mpr hcap
    have hcr : checkRackIds cap aisles = none := (checkRackIds_eq_none cap aisles).mpr hrange
    have h2count : 2 ≤ aisles.flatten.count r := by
      subst hsplit
      have hc1 : 1 ≤ a1.count r := List.count_pos_iff.mpr hr1
      have hc2 : 1 ≤ a2.count r := List.count_pos_iff.mpr hr2
      simp only [List.flatten_append, List.flatten_cons, List.count_append]
      omega
    have hnotnodup : ¬ aisles.flatten.Nodup := by
      intro hnd
      have := (List.nodup_iff_count_le_one.mp hnd) r
      omega
    cases hf : findDup [] aisles.flatten with
    | none => exact absurd ((findDup_eq_none aisles.flatten []).mp hf).2 hnotnodup
    | some rd =>
      have hrd2 : 2 ≤ aisles.flatten.count rd := by
        rcases findDup_some aisles.flatten [] rd hf with ⟨hs, _⟩ | h2
        · cases hs
        · exact h2
      refine ⟨rd, ?_, hrd2⟩
      have hcx : checkExclusive aisles = some (Invariant.duplicateRack rd) := by
        unfold checkExclusive
        rw [hf]
        rfl
      simp [validate, hcs, hce, hcc, hcr, hcx]
  · intro adj cap circuit aisles orders hsq hnn hcap hrange hnd hbad
    have hcs : checkSquare adj = none := (checkSquare_eq_none adj).mpr hsq
    have hce : checkEntries adj = none := (checkEntries_eq_none adj).mpr hnn
    have hcc : checkCapacity cap = none := (checkCapacity_eq_none cap).mpr hcap
    have hcr : checkRackIds cap aisles = none := (checkRackIds_eq_none cap aisles).mpr hrange
    have hcx : checkExclusive aisles = none := (checkExclusive_eq_none aisles).mpr hnd
    obtain ⟨ord, ho, p, hp, hpbad⟩ := hbad
    have hpred : ord.any (productIdBad circuit) = true := by
      rw [List.any_eq_true]
      exact ⟨p, hp, by simp [productIdBad, hpbad]⟩
    obtain ⟨i, hi⟩ := scanFirst_isSome (fun ord => ord.any (productIdBad circuit))
      orders ord ho hpred
    obtain ⟨hlt, hpi⟩ := scanFirst_some (fun ord => ord.any (productIdBad circuit)) orders i hi
    rw [List.any_eq_true] at hpi
    obtain ⟨q, hq, hqbad⟩ := hpi
    refine ⟨i, ?_, hlt, q, hq, ?_⟩
    · have hco : checkOrders circuit orders = some (Invariant.productIdOutOfRange i) := by
        simp [checkOrders, hi]
      simp [validate, hcs, hce, hcc, hcr, hcx, hco]
    · have := of_decide_eq_true hqbad
      simpa [productIdBad] using this

/-- C5 witness: the negative-capacity conjunct applied to the concrete
capacities [10, -5] (with a trivially valid adjacency matrix). -/
theorem load_rejects_invalid_witness :
    ∃ i, validate [[0]] [10, -5] [] [] [] = some (Invariant.negativeCapacity i) ∧
      ∃ hi : i < ([10, -5] : List Int).length, ([10, -5] : List Int).get ⟨i, hi⟩ < 0 :=
  load_rejects_invalid.2.1 [[0]] [10, -5] [] [] [] (by decide) (by decide) (by decide)

/-- C6: whenever a required spec file is missing from the directory, load
fails with an IOError naming a missing required file, and no instance is
produced. -/
theorem load_missing_file (d : Directory)
    (h : d.graph = none ∨ d.rack_capacity = none ∨ d.aisles_racks = none ∨
      d.product_circuit = none ∨ d.orders = none) :
    load d = Except.error (LoadError.ioError (missingName d)) ∧
    fileOf d (missingName d) = none := by
  obtain ⟨g, c, a, p, o, m⟩ := d
  cases g <;> cases c <;> cases a <;> cases p <;> cases o <;>
    simp_all [load, missingName, fileOf]

/-- C6 witness: the missing-file behaviour on a directory lacking its orders
file. -/
theorem load_missing_file_witness :
    load missingOrdersDir = Except.error (LoadError.ioError (missingName missingOrdersDir)) ∧
    fileOf missingOrdersDir (missingName missingOrdersDir) = none :=
  load_missing_file missingOrdersDir (by decide)

/-! Helper lemmas about the std::map insertion model. -/

theorem mem_insertEntry (k : String) (v : ℚ) (l : List (String × ℚ)) (a : String × ℚ)
    (ha : a ∈ insertEntry k v l) : a = (k, v) ∨ a ∈ l := by
  induction l with
  | nil =>
    unfold insertEntry at ha
    rcases List.mem_singleton.mp ha with rfl
    exact Or.inl rfl
  | cons kv2 t ih =>
    obtain ⟨k2, v2⟩ := kv2
    unfold insertEntry at ha
    by_cases hlt : k < k2
    · rw [if_pos hlt] at ha
      rcases List.mem_cons.mp ha with rfl | ha2
      · exact Or.inl rfl
      · exact Or.inr ha2
    · rw [if_neg hlt] at ha
      by_cases heq : k = k2
      · rw [if_pos heq] at ha
        exact Or.inr ha
      · rw [if_neg heq] at ha
        rcases List.mem_cons.mp ha with rfl | ha2
        · exact Or.inr (List.mem_cons_self _ _)
        · rcases ih ha2 with h | h
          · exact Or.inl h
          · exact Or.inr (List.mem_cons_of_mem _ h)

theorem insertEntry_pairwise (k : String) (v : ℚ) (l : List (String × ℚ))
    (hl : List.Pairwise keyLt l) : List.Pairwise keyLt (insertEntry k v l) := by
  induction l with
  | nil => simp [insertEntry, List.pairwise_cons]
  | cons kv2 t ih =>
    obtain ⟨k2, v2⟩ := kv2
    obtain ⟨hhead, ht⟩ := List.pairwise_cons.mp hl
    unfold insertEntry
    by_cases hlt : k < k2
    · rw [if_pos hlt]
      refine List.pairwise_cons.mpr ⟨?_, hl⟩
      intro y hy
      rcases List.mem_cons.mp hy with rfl | hy2
      · exact hlt
      · exact lt_trans hlt (hhead y hy2)
    · rw [if_neg hlt]
      by_cases heq : k = k2
      · rw [if_pos heq]
        exact hl
      · rw [if_neg heq]
        have hgt : k2 < k := lt_of_le_of_ne (le_of_not_lt hlt) (Ne.symm heq)
        refine List.pairwise_cons.mpr ⟨?_, ih ht⟩
        intro y hy
        rcases mem_insertEntry k v t y hy with rfl | hy2
        · exact hgt
        · exact hhead y hy2

theorem insertEntry_perm (k : String) (v : ℚ) (l : List (String × ℚ))
    (hk : k ∉ l.map Prod.fst) : List.Perm (insertEntry k v l) ((k, v) :: l) := by
  induction l with
  | nil => exact List.Perm.refl _
  | cons kv2 t ih =>
    obtain ⟨k2, v2⟩ := kv2
    simp only [List.map_cons, List.mem_cons, not_or] at hk
    obtain ⟨hk2, hkt⟩ := hk
    unfold insertEntry
    by_cases hlt : k < k2
    · rw [if_pos hlt]
    · rw [if_neg hlt, if_neg hk2]
      exact (List.Perm.cons _ (ih hkt)).trans (List.Perm.swap (k, v) (k2, v2) t)

theorem foldl_insert_pairwise (l : List (String × ℚ)) :
    ∀ acc : List (String × ℚ), List.Pairwise keyLt acc →
      List.Pairwise keyLt (l.foldl (fun acc kv => insertEntry kv.1 kv.2 acc) acc) := by
  induction l with
  | nil => intro acc hacc; exact hacc
  | cons kv t ih =>
    intro acc hacc
    exact ih _ (insertEntry_pairwise kv.1 kv.2 acc hacc)

theorem mkEntries_pairwise (l : List (String × ℚ)) : List.Pairwise keyLt (mkEntries l) :=
  foldl_insert_pairwise l [] List.Pairwise.nil

theorem foldl_insert_perm (l : List (String × ℚ)) :
    ∀ acc : List (String × ℚ), ((acc ++ l).map Prod.fst).Nodup →
      List.Perm (l.foldl (fun acc kv => insertEntry kv.1 kv.2 acc) acc) (acc ++ l) := by
  induction l with
  | nil =>
    intro acc _
    simp
  | cons kv t ih =>
    intro acc hnd
    have hmid : List.Perm ((kv :: acc) ++ t) (acc ++ kv :: t) := by
      simpa using (@List.perm_middle _ kv acc t).symm
    have hnd2 : (((kv :: acc) ++ t).map Prod.fst).Nodup :=
      ((hmid.map Prod.fst).nodup_iff).mpr hnd
    have hk_notin : kv.1 ∉ acc.map Prod.fst := by
      simp only [List.cons_append, List.map_cons, List.nodup_cons, List.map_append,
        List.mem_append, not_or] at hnd2
      exact hnd2.1.1
    have hperm1 : List.Perm (insertEntry kv.1 kv.2 acc) (kv :: acc) := by
      simpa using insertEntry_perm kv.1 kv.2 acc hk_notin
    have hIHpre : ((insertEntry kv.1 kv.2 acc ++ t).map Prod.fst).Nodup :=
      (((hperm1.append_right t).map Prod.fst).nodup_iff).mpr hnd2
    exact (ih _ hIHpre).trans ((hperm1.append_right t).trans hmid)

theorem mkEntries_perm (l : List (String × ℚ)) (h : (l.map Prod.fst).Nodup) :
    List.Perm (mkEntries l) l :=
  foldl_insert_perm l [] (by simpa using h)

theorem pairwise_keys_nodup (l : List (String × ℚ)) (h : List.Pairwise keyLt l) :
    (l.map Prod.fst).Nodup := by
  have hlt : List.Pairwise (fun a b : String => a < b) (l.map Prod.fst) :=
    List.pairwise_map.mpr h
  exact hlt.imp (fun hab => ne_of_lt hab)

theorem mkEntries_eq_of_perm (l1 l2 : List (String × ℚ))
    (hnd : (l1.map Prod.fst).Nodup) (hp : List.Perm l1 l2) :
    mkEntries l1 = mkEntries l2 := by
  have hnd2 : (l2.map Prod.fst).Nodup := ((hp.map Prod.fst).nodup_iff).mp hnd
  have hchain : List.Perm (mkEntries l1) (mkEntries l2) :=
    ((mkEntries_perm l1 hnd).trans hp).trans (mkEntries_perm l2 hnd2).symm
  exact List.eq_of_perm_of_sorted hchain (mkEntries_pairwise l1) (mkEntries_pairwise l2)

theorem mkEntries_of_sorted (l : List (String × ℚ)) (h : List.Pairwise keyLt l) :
    mkEntries l = l :=
  List.eq_of_perm_of_sorted (mkEntries_perm l (pairwise_keys_nodup l h))
    (mkEntries_pairwise l) h

/-- C8: in every WarehouseInstance the metadata mapping has each name at most
once (keys unique by the std::map structure), and the map built by inserting a
set of uniquely-named entries does not depend on the insertion order. -/
theorem metadata_map_unique :
    (∀ w : WarehouseInstance, w.wf → (w.metadata.map Prod.fst).Nodup) ∧
    (∀ l1 l2 : List (String × ℚ), (l1.map Prod.fst).Nodup → List.Perm l1 l2 →
      mkEntries l1 = mkEntries l2) :=
  ⟨fun w hw => pairwise_keys_nodup w.metadata hw,
   fun l1 l2 hnd hp => mkEntries_eq_of_perm l1 l2 hnd hp⟩

/-- C8 witness: key uniqueness on the example instance, and insertion-order
independence on a concrete two-entry insertion sequence and its transposition. -/
theorem metadata_map_unique_witness :
    (exampleInstance.metadata.map Prod.fst).Nodup ∧
    mkEntries [((r"a"), (1 : ℚ)), ((r"b"), (2 : ℚ))] =
      mkEntries [((r"b"), (2 : ℚ)), ((r"a"), (1 : ℚ))] :=
  ⟨metadata_map_unique.1 exampleInstance (by decide),
   metadata_map_unique.2 [((r"a"), (1 : ℚ)), ((r"b"), (2 : ℚ))]
     [((r"b"), (2 : ℚ)), ((r"a"), (1 : ℚ))] (by decide)
     (List.Perm.swap _ _ _)⟩

/-! Helper lemmas for the serialization round trip. -/

theorem parseRows_map {α : Type} (pl : List Token → Option α) (g : α → List Token)
    (hinv : ∀ a, pl (g a) = some a) (l : List α) :
    parseRows pl (l.map g) = some l := by
  induction l with
  | nil => rfl
  | cons a t ih =>
    rw [List.map_cons]
    unfold parseRows
    rw [hinv a, ih]

theorem parseInts_map (row : List Int) : parseInts (row.map Token.int) = some row := by
  induction row with
  | nil => rfl
  | cons n t ih =>
    rw [List.map_cons]
    unfold parseInts
    rw [ih]
    rfl

theorem getLast?_map {α β : Type} (g : α → β) (l : List α) :
    (l.map g).getLast? = (l.getLast?).map g := by
  rw [← List.head?_reverse, ← List.head?_reverse, ← List.map_reverse, List.head?_map]

theorem dropTrailingBlanks_eq_self (f : FileContent)
    (h : f.getLast? ≠ some ([] : List Token)) : dropTrailingBlanks f = f := by
  unfold dropTrailingBlanks
  cases hrev : f.reverse with
  | nil =>
    have hf : f = [] := List.reverse_eq_nil_iff.mp hrev
    subst hf
    simp
  | cons x xs =>
    have hx : f.getLast? = some x := by
      rw [← List.head?_reverse, hrev, List.head?_cons]
    have hxne : x ≠ [] := by
      intro hcon
      exact h (by rw [hx, hcon])
    rw [List.dropWhile_cons]
    have hne : x.isEmpty = false := by
      simpa [List.isEmpty_iff] using hxne
    rw [hne]
    simp only [Bool.false_eq_true, if_false]
    rw [← hrev, List.reverse_reverse]

theorem serializeMatrix_no_blank (m : List (List Int))
    (h : m.getLast? ≠ some ([] : List Int)) :
    dropTrailingBlanks (serializeMatrix m) = serializeMatrix m := by
  apply dropTrailingBlanks_eq_self
  unfold serializeMatrix
  rw [getLast?_map]
  cases hm : m.getLast? with
  | none => simp
  | some row =>
    simp only [Option.map_some']
    intro hcon
    injection hcon with hcon2
    exact h (by rw [hm, List.map_eq_nil_iff.mp hcon2])

theorem serializeColumn_no_blank (l : List Int) :
    dropTrailingBlanks (serializeColumn l) = serializeColumn l := by
  apply dropTrailingBlanks_eq_self
  unfold serializeColumn
  rw [getLast?_map]
  cases hl : l.getLast? with
  | none => simp
  | some n => simp

theorem serializeMeta_no_blank (l : List (String × ℚ)) :
    dropTrailingBlanks (serializeMeta l) = serializeMeta l := by
  apply dropTrailingBlanks_eq_self
  unfold serializeMeta
  rw [getLast?_map]
  cases hl : l.getLast? with
  | none => simp
  | some kv => simp

theorem mem_of_getLast_eq {α : Type} {l : List α} {a : α} (h : l.getLast? = some a) :
    a ∈ l := by
  induction l with
  | nil => cases h
  | cons x t ih =>
    cases t with
    | nil =>
      injection h with h2
      exact h2 ▸ List.mem_cons_self x []
    | cons y u =>
      rw [List.getLast?_cons_cons] at h
      exact List.mem_cons_of_mem x (ih h)

theorem square_no_blank (adj : List (List Int))
    (hsq : ∀ row ∈ adj, row.length = adj.length) :
    adj.getLast? ≠ some ([] : List Int) := by
  intro hcon
  have hmem : ([] : List Int) ∈ adj := mem_of_getLast_eq hcon
  have h0 : ([] : List Int).length = adj.length := hsq [] hmem
  simp only [List.length_nil] at h0
  have hne : adj ≠ [] := by
    intro hnil
    rw [hnil] at hcon
    cases hcon
  exact hne (List.length_eq_zero.mp h0.symm)

/-- C7 (amended): for in-memory specs satisfying all the loader invariants
(with metadata key-sorted, as a std::map is), and whose last order and last
aisle rack-list are non-empty — a line-oriented text format drops blank
trailing lines, so a trailing empty order or aisle cannot round-trip —
directory-loading the serialized files yields exactly the directly
constructed instance, field for field. -/
theorem load_roundtrip (s : Specs)
    (hval : validate s.adjacency s.rack_capacity s.product_circuit
      s.aisles_racks s.orders = none)
    (hmeta : metaSorted s.metadata)
    (hord : s.orders.getLast? ≠ some ([] : List Int))
    (haisle : s.aisles_racks.getLast? ≠ some ([] : List Int)) :
    load (serializeDir s) = Except.ok (directInstance s) := by
  have hparts := (validate_eq_none_iff _ _ _ _ _).mp hval
  have hsq := (checkSquare_eq_none _).mp hparts.1
  have hadjlast := square_no_blank s.adjacency hsq
  have hg : parseMatrixFile (serializeMatrix s.adjacency) = some s.adjacency := by
    unfold parseMatrixFile
    rw [serializeMatrix_no_blank _ hadjlast]
    exact parseRows_map parseInts (fun row => row.map Token.int) parseInts_map s.adjacency
  have hc : parseColumnFile (serializeColumn s.rack_capacity) = some s.rack_capacity := by
    unfold parseColumnFile
    rw [serializeColumn_no_blank]
    exact parseRows_map parseSingleInt (fun n => [Token.int n]) (fun n => rfl) s.rack_capacity
  have ha : parseMatrixFile (serializeMatrix s.aisles_racks) = some s.aisles_racks := by
    unfold parseMatrixFile
    rw [serializeMatrix_no_blank _ haisle]
    exact parseRows_map parseInts (fun row => row.map Token.int) parseInts_map s.aisles_racks
  have hp : parseColumnFile (serializeColumn s.product_circuit) = some s.product_circuit := by
    unfold parseColumnFile
    rw [serializeColumn_no_blank]
    exact parseRows_map parseSingleInt (fun n => [Token.int n]) (fun n => rfl)
      s.product_circuit
  have ho : parseMatrixFile (serializeMatrix s.orders) = some s.orders := by
    unfold parseMatrixFile
    rw [serializeMatrix_no_blank _ hord]
    exact parseRows_map parseInts (fun row => row.map Token.int) parseInts_map s.orders
  have hm : parseMetaFile (serializeMeta s.metadata) = some s.metadata := by
    unfold parseMetaFile
    rw [serializeMeta_no_blank]
    exact parseRows_map parseMetaLine (fun kv => [Token.word kv.1, Token.real kv.2])
      (fun kv => rfl) s.metadata
  simp only [load, serializeDir, hg, hc, ha, hp, ho, hm, hval,
    mkEntries_of_sorted s.metadata hmeta, directInstance]

/-- C7 witness: the round trip on fully valid concrete specs. -/
theorem load_roundtrip_witness :
    load (serializeDir roundtripSpecs) = Except.ok (directInstance roundtripSpecs) :=
  load_roundtrip roundtripSpecs (by decide) (by decide) (by decide) (by decide)

/-- C7 counterexample: specs satisfying every loader invariant whose orders
list is the single empty order; the serialized orders file is one blank line,
which parsing drops, so the loaded instance differs from the directly
constructed one. -/
theorem load_roundtrip_fails_empty_order :
    validate emptyOrderSpecs.adjacency emptyOrderSpecs.rack_capacity
      emptyOrderSpecs.product_circuit emptyOrderSpecs.aisles_racks
      emptyOrderSpecs.orders = none ∧
    metaSorted emptyOrderSpecs.metadata ∧
    load (serializeDir emptyOrderSpecs) ≠ Except.ok (directInstance emptyOrderSpecs) := by
  refine ⟨rfl, List.Pairwise.nil, ?_⟩
  decide

end POIP
